import Mathlib

/-!
Verification development for `lib/Installer.js` of desertnet/node-bundler.

The installer is shallowly embedded: promisified computations become pure
functions over an explicit `World` (filesystem, network, release index),
and every filesystem or network operation additionally emits an `Eff`
entry into an effect log, so that claims about which operations run (and
how often) become statements about the log.

External libraries are modelled:
* `semver` is modelled for plain `MAJOR.MINOR.PATCH` version strings
  (numeric components, no leading zeros, no prerelease tags), which is the
  shape of the release-index versions this code consumes; range predicates
  are abstracted as `SemVer → Bool` parameters.
* `crypto`'s SHA-256 is abstracted as a `digestOf : String → List Nat`
  parameter producing digest bytes; `Buffer.toString("hex")` is modelled
  by `hexEncode`, which produces lowercase hex like Node does.
* the `split` stream is modelled by `splitLines` (split on `\r?\n`).
-/

namespace Bundler

/-- Whitespace as matched by the JavaScript regex class `\s`
(ASCII part: space, tab, newline, carriage return, vertical tab, form feed). -/
def isWS (c : Char) : Bool :=
  c = ' ' || c = '\t' || c = '\n' || c = '\r' || c = '\x0b' || c = '\x0c'

/-- Split a character list on a separator character, keeping empty pieces
(the semantics of splitting a string on a single-character separator). -/
def splitOnChar (sep : Char) : List Char → List (List Char)
  | [] => [[]]
  | c :: rest =>
    let r := splitOnChar sep rest
    if c = sep then [] :: r
    else
      match r with
      | [] => [[c]]
      | x :: xs => (c :: x) :: xs

/-- Drop a single trailing carriage return, so that splitting on `'\n'`
and then applying this models splitting on the regex `\r?\n`
(the default line splitter of the `split` stream used by `parseShasumFile`). -/
def dropTrailingCR (l : List Char) : List Char :=
  match l.getLast? with
  | some '\r' => l.dropLast
  | _ => l

/-- Split a string into lines the way the `split` stream does (on `\r?\n`). -/
def splitLines (s : String) : List String :=
  (splitOnChar '\n' s.data).map (fun l => String.mk (dropTrailingCR l))

/-- Model of `path.join(a, b)` for the simple two-component joins the
installer performs. -/
def pathJoin (a b : String) : String := a ++ "/" ++ b

/-- Value of a digit list read in base 10. -/
def natOfDigits (l : List Char) : Nat :=
  l.foldl (fun n c => n * 10 + (c.toNat - 48)) 0

/-- Parse a numeric semver component: nonempty, all digits, no leading zero
(the strict numeric-identifier grammar of the `semver` package). -/
def parseNum (l : List Char) : Option Nat :=
  if l = [] then none
  else if !(l.all Char.isDigit) then none
  else if 1 < l.length && l.head? = some '0' then none
  else some (natOfDigits l)

/-- A parsed semantic version (plain `MAJOR.MINOR.PATCH`). -/
structure SemVer where
  major : Nat
  minor : Nat
  patch : Nat
deriving DecidableEq, Repr

/-- Strict semantic-version ordering on plain versions:
lexicographic on (major, minor, patch), as `semver.compare` orders them. -/
def svLt (a b : SemVer) : Bool :=
  Nat.blt a.major b.major ||
    (a.major == b.major &&
      (Nat.blt a.minor b.minor ||
        (a.minor == b.minor && Nat.blt a.patch b.patch)))

/-- Parse a plain `MAJOR.MINOR.PATCH` version string
(model of `semver`'s parser on the versions the release index carries). -/
def parseSemVer (s : String) : Option SemVer :=
  match splitOnChar '.' s.data with
  | [a, b, c] =>
    match parseNum a, parseNum b, parseNum c with
    | some ma, some mi, some pa => some ⟨ma, mi, pa⟩
    | _, _, _ => none
  | _ => none

/-- Embedding of `release.version.replace(/^v/, "")` (Installer.js line 62):
strip one leading `v` if present. -/
def stripV (s : String) : String :=
  match s.data with
  | 'v' :: rest => String.mk rest
  | _ => s

/-- Keep the better (higher) of the current best satisfying version and a
newly seen satisfying version. -/
def pickBetter (best : Option (String × SemVer)) (v : String) (sv : SemVer) :
    Option (String × SemVer) :=
  match best with
  | none => some (v, sv)
  | some (b, sb) => if svLt sb sv then some (v, sv) else some (b, sb)

/-- Fold computing the highest version string that parses and satisfies the
range (model of `semver.maxSatisfying`, Installer.js line 63). -/
def maxSatisfyingAux (range : SemVer → Bool) :
    List String → Option (String × SemVer) → Option (String × SemVer)
  | [], best => best
  | v :: rest, best =>
    match parseSemVer v with
    | none => maxSatisfyingAux range rest best
    | some sv =>
      if range sv then maxSatisfyingAux range rest (pickBetter best v sv)
      else maxSatisfyingAux range rest best

/-- Model of `semver.maxSatisfying(versions, range)`: the highest version in
the list satisfying the range, or `none` if no version satisfies it. -/
def maxSatisfying (versions : List String) (range : SemVer → Bool) : Option String :=
  (maxSatisfyingAux range versions none).map Prod.fst

/-- The error taxonomy of the installer (each constructor corresponds to one
`reject`/`throw` site in Installer.js). -/
inductive Err where
  | invalidSelector
  | networkError
  | fsError
  | noSatisfyingVersion
  | missingChecksum
  | checksumMismatch
deriving DecidableEq, Repr

instance {ε α : Type} [DecidableEq ε] [DecidableEq α] : DecidableEq (Except ε α) := fun a b =>
  match a, b with
  | Except.ok x, Except.ok y =>
    if h : x = y then isTrue (by rw [h]) else isFalse (by intro hc; cases hc; exact h rfl)
  | Except.error x, Except.error y =>
    if h : x = y then isTrue (by rw [h]) else isFalse (by intro hc; cases hc; exact h rfl)
  | Except.ok _, Except.error _ => isFalse (by intro hc; cases hc)
  | Except.error _, Except.ok _ => isFalse (by intro hc; cases hc)

/-- Embedding of the version-resolution step of the `this._version` executor
(Installer.js lines 62-68): strip a leading `v` from every index version,
take the maximum version satisfying the selector, and reject with the
no-satisfying-version error when there is none. -/
def resolveVersion (index : List String) (range : SemVer → Bool) : Except Err String :=
  let versions := index.map stripV
  match maxSatisfying versions range with
  | none => Except.error Err.noSatisfyingVersion
  | some v => Except.ok v

/-- The semver range `^1.2.0` (that is, `>=1.2.0 <2.0.0`), used by the
spec's worked example. -/
def caretOneTwoZero (v : SemVer) : Bool :=
  v.major == 1 && !(svLt v ⟨1, 2, 0⟩)

/-! Manifest parsing (`parseShasumFile`, Installer.js lines 148-163).

Each line is matched against the regex `^(.+?)\s+(.+?)\s*$`.  The matcher
below implements exactly this regex with JavaScript backtracking
semantics: group 1 is lazy (shortest nonempty prefix), the separator
`\s+` is greedy with backtracking, group 2 is lazy, and `\s*$` forces the
remainder after group 2 to be all whitespace. -/

/-- Match `(.+?)\s*$` against a suffix: the capture is the shortest
nonempty prefix whose remainder is all whitespace.  Returns the capture. -/
def matchTailAux : List Char → Option (List Char)
  | [] => none
  | c :: rest =>
    if rest.all isWS then some [c]
    else (matchTailAux rest).map (fun q => c :: q)

/-- Match `\s+(.+?)\s*$` after at least one whitespace character has been
consumed: greedily extend the whitespace run, backtracking to leave the
current character to group 2 when extending fails. -/
def matchSepMore : List Char → Option (List Char)
  | [] => none
  | c :: rest =>
    if isWS c then
      match matchSepMore rest with
      | some q => some q
      | none => matchTailAux (c :: rest)
    else matchTailAux (c :: rest)

/-- Match `\s+(.+?)\s*$` against a suffix: requires a leading whitespace
character, then proceeds greedily. -/
def matchSep : List Char → Option (List Char)
  | [] => none
  | c :: rest => if isWS c then matchSepMore rest else none

/-- Match the full regex `^(.+?)\s+(.+?)\s*$`: group 1 is lazy, so the
split point is pushed right only while the separator fails to match. -/
def matchGroups : List Char → Option (List Char × List Char)
  | [] => none
  | c :: rest =>
    match matchSep rest with
    | some q => some ([c], q)
    | none =>
      match matchGroups rest with
      | some (p, q) => some (c :: p, q)
      | none => none

/-- Embedding of `line.match(/^(.+?)\s+(.+?)\s*$/)` (Installer.js line 156):
on success returns (digest capture, filename capture). -/
def matchLine (line : String) : Option (String × String) :=
  match matchGroups line.data with
  | some (p, q) => some (String.mk p, String.mk q)
  | none => none

/-- The parsed checksum manifest: a map from file name to digest string
(the `shasums` object built by `parseShasumFile`). -/
def ShasumMap : Type := String → Option String

/-- The empty manifest (`var shasums = {}`). -/
def emptyShasums : ShasumMap := fun _ => none

/-- Embedding of `shasums[parts[2]] = parts[1]`: record a digest under a
file name, overwriting any earlier entry. -/
def addEntry (m : ShasumMap) (fname digest : String) : ShasumMap :=
  fun k => if k = fname then some digest else m k

/-- Process one line of the manifest (Installer.js lines 155-158): lines
matching the pattern add an entry, all other lines are skipped. -/
def parseShasumLine (m : ShasumMap) (line : String) : ShasumMap :=
  match matchLine line with
  | some (digest, fname) => addEntry m fname digest
  | none => m

/-- Fold `parseShasumLine` over the lines of the manifest. -/
def parseShasumLines (lines : List String) : ShasumMap :=
  lines.foldl parseShasumLine emptyShasums

/-- Embedding of `parseShasumFile` (Installer.js lines 148-163) on the text
of the manifest file: line-oriented, total — unmatched lines are skipped
and an empty result is a normal value, not an error. -/
def parseShasumText (text : String) : ShasumMap :=
  parseShasumLines (splitLines text)

/-! Checksum validation (`validateShasum`, Installer.js lines 165-182). -/

/-- The lowercase hex digit for a value below 16 (Node's
`Buffer.toString("hex")` uses lowercase). -/
def hexDigitChar (n : Nat) : Char :=
  if n < 10 then Char.ofNat (48 + n) else Char.ofNat (87 + n)

/-- Lowercase hex encoding of digest bytes, the model of
`hash.read().toString("hex")` (Installer.js line 173). -/
def hexEncode (bytes : List Nat) : String :=
  String.mk (bytes.foldr
    (fun b acc => hexDigitChar (b / 16 % 16) :: hexDigitChar (b % 16) :: acc) [])

/-- One entry of the effect log: a filesystem existence check, file read,
file write, network GET, or directory creation. -/
inductive Eff where
  | fsExists (p : String)
  | readF (p : String)
  | writeF (p : String)
  | netGet (u : String)
  | mkdir (p : String)
deriving DecidableEq, Repr

/-- Embedding of `validateShasum(path, expectedShasum)` (Installer.js lines
165-182): read the file at `p`, hash its content, hex-encode the digest,
and compare it with `===` (exact string equality) against the expected
value; resolve with the path on equality, reject with the mismatch error
otherwise.  `digestOf` abstracts `crypto.createHash("sha256")`. -/
def validateShasum (digestOf : String → List Nat) (files : String → Option String)
    (p expectedShasum : String) : Except Err String × List Eff :=
  match files p with
  | none => (Except.error Err.fsError, [Eff.readF p])
  | some content =>
    let shasum := hexEncode (digestOf content)
    if shasum = expectedShasum then (Except.ok p, [Eff.readF p])
    else (Except.error Err.checksumMismatch, [Eff.readF p])

/-- Embedding of `Installer.prototype._downloadAndCacheFile` (Installer.js
lines 117-136), for fixed resolved values of the file URL, file name,
per-version cache directory and parsed manifest: look up the file name in
the manifest (reject with the missing-checksum error if absent, before any
filesystem or network activity); check whether the cache file exists; on a
hit validate it in place; on a miss download the body, write it to the
cache path, and validate the freshly written file. -/
def downloadAndCacheFile (digestOf : String → List Nat)
    (files net : String → Option String)
    (fileUrl fileName cacheDir : String) (shasums : ShasumMap) :
    Except Err String × List Eff :=
  let cachedFilePath := pathJoin cacheDir fileName
  match shasums fileName with
  | none => (Except.error Err.missingChecksum, [])
  | some expectedShasum =>
    match files cachedFilePath with
    | some _ =>
      let r := validateShasum digestOf files cachedFilePath expectedShasum
      (r.1, Eff.fsExists cachedFilePath :: r.2)
    | none =>
      match net fileUrl with
      | none => (Except.error Err.networkError,
          [Eff.fsExists cachedFilePath, Eff.netGet fileUrl])
      | some body =>
        let files2 : String → Option String :=
          fun q => if q = cachedFilePath then some body else files q
        let r := validateShasum digestOf files2 cachedFilePath expectedShasum
        (r.1, Eff.fsExists cachedFilePath :: Eff.netGet fileUrl ::
          Eff.writeF cachedFilePath :: r.2)

/-! URL and file-name derivation (Installer.js lines 47, 72-101). -/

/-- The distribution base URL. -/
def distBase : String := "https://iojs.org/dist/"

/-- The release index URL, `https://iojs.org/dist/index.json`. -/
def indexJsonUrl : String := distBase ++ "index.json"

/-- The per-version distribution directory URL,
`https://iojs.org/dist/v<version>/`. -/
def versionBaseUrl (version : String) : String :=
  distBase ++ ("v" ++ (version ++ "/"))

/-- URL of a file in the per-version distribution directory (Installer.js
lines 76-78 and 84-86 both build `"https://iojs.org/dist/v" + version +
"/" + fileName`). -/
def distFileUrl (version fileName : String) : String :=
  versionBaseUrl version ++ fileName

/-- URL of the checksum manifest, `.../v<version>/SHASUMS256.txt`
(Installer.js line 100). -/
def shasumsFileUrl (version : String) : String :=
  versionBaseUrl version ++ "SHASUMS256.txt"

/-- Embedding of `this._installerFileName` (Installer.js lines 72-74). -/
def installerFileName (version platform arch : String) : String :=
  "iojs-v" ++ (version ++ ("-" ++ (platform ++ ("-" ++ (arch ++ ".tar.gz")))))

/-- Embedding of `this._srcFileName` (Installer.js lines 80-82). -/
def srcFileName (version : String) : String :=
  "iojs-v" ++ (version ++ ".tar.xz")

/-- The root download cache directory (`path.resolve(__dirname, "..",
"cache")`, Installer.js line 39), modelled as an abstract path. -/
def cacheRootDir : String := "cache"

/-- The name of the cached manifest file (Installer.js line 101 joins
`"SHASUM256.txt"` — without the second S — onto the cache directory). -/
def shasumCachePath (cacheDir : String) : String :=
  pathJoin cacheDir "SHASUM256.txt"

/-- The outside world a session runs against: the release index the index
URL serves (`none` models a network or format failure), the filesystem,
the network (`none` models a request error), and which `mkdirp` calls
succeed. -/
structure World where
  releaseIndex : Option (List String)
  files : String → Option String
  net : String → Option String
  mkdirOk : String → Bool

/-- Embedding of the `this._shasums` executor (Installer.js lines 98-111):
if the cached manifest file exists, parse it directly; otherwise download
it from the manifest URL, write it to the cache path, and parse the
written file. -/
def getShasums (files net : String → Option String) (cacheDir version : String) :
    Except Err ShasumMap × List Eff :=
  let p := shasumCachePath cacheDir
  let u := shasumsFileUrl version
  match files p with
  | some content => (Except.ok (parseShasumText content), [Eff.fsExists p, Eff.readF p])
  | none =>
    match net u with
    | none => (Except.error Err.networkError, [Eff.fsExists p, Eff.netGet u])
    | some body =>
      (Except.ok (parseShasumText body),
        [Eff.fsExists p, Eff.netGet u, Eff.writeF p, Eff.readF p])

/-- The deferred results an `Installer` holds once constructed: the
resolved version and the two verified artifact paths. -/
structure SessionOut where
  version : Except Err String
  installerFile : Except Err String
  srcFile : Except Err String
deriving DecidableEq, Repr

/-- Embedding of the `Installer` constructor (Installer.js lines 26-115).
The selector is validated first (`semver.validRange`, abstracted as the
`validRange` parameter): an invalid selector throws before any network or
filesystem activity.  Otherwise the root cache directory is created and
the release index fetched; the resolved version and root directory gate
the per-version directory, which in turn gates the manifest fetch and the
two artifact downloads.  Each computation is evaluated once and its value
shared by all dependents, mirroring the promise graph; the first failure
propagates to every dependent. -/
def buildSession (validRange : String → Option String) (digestOf : String → List Nat)
    (range : SemVer → Bool) (w : World) (versionSelector platform arch : String) :
    Except Err SessionOut × List Eff :=
  match validRange versionSelector with
  | none => (Except.error Err.invalidSelector, [])
  | some _ =>
    let baseLog : List Eff := [Eff.mkdir cacheRootDir, Eff.netGet indexJsonUrl]
    let versionRes : Except Err String :=
      match w.releaseIndex with
      | none => Except.error Err.networkError
      | some index => resolveVersion index range
    let rootRes : Except Err String :=
      if w.mkdirOk cacheRootDir then Except.ok cacheRootDir
      else Except.error Err.fsError
    match versionRes, rootRes with
    | Except.error e, _ =>
      (Except.ok ⟨Except.error e, Except.error e, Except.error e⟩, baseLog)
    | Except.ok v, Except.error e =>
      (Except.ok ⟨Except.ok v, Except.error e, Except.error e⟩, baseLog)
    | Except.ok v, Except.ok root =>
      let vdir := pathJoin root v
      if w.mkdirOk vdir = false then
        (Except.ok ⟨Except.ok v, Except.error Err.fsError, Except.error Err.fsError⟩,
          baseLog ++ [Eff.mkdir vdir])
      else
        let sres := getShasums w.files w.net vdir v
        match sres.1 with
        | Except.error e =>
          (Except.ok ⟨Except.ok v, Except.error e, Except.error e⟩,
            baseLog ++ [Eff.mkdir vdir] ++ sres.2)
        | Except.ok shasums =>
          let iname := installerFileName v platform arch
          let iurl := distFileUrl v iname
          let sname := srcFileName v
          let surl := distFileUrl v sname
          let ri := downloadAndCacheFile digestOf w.files w.net iurl iname vdir shasums
          let rs := downloadAndCacheFile digestOf w.files w.net surl sname vdir shasums
          (Except.ok ⟨Except.ok v, ri.1, rs.1⟩,
            baseLog ++ [Eff.mkdir vdir] ++ sres.2 ++ ri.2 ++ rs.2)

/-- The value handed to the external installation collaborator: the
`Installation` constructor (Installer.js line 140) receives only the
resolved version. -/
structure Installation where
  version : String
deriving DecidableEq, Repr

/-- Embedding of `Installer.prototype.install` (Installer.js lines 138-146):
join the resolved version and the two verified artifacts; on success call
back with `new Installation(version)`, on any failure call back with the
error. -/
def install (version installerFile srcFile : Except Err String) :
    Except Err Installation :=
  match version, installerFile, srcFile with
  | Except.ok v, Except.ok _, Except.ok _ => Except.ok ⟨v⟩
  | Except.error e, _, _ => Except.error e
  | Except.ok _, Except.error e, _ => Except.error e
  | Except.ok _, Except.ok _, Except.error e => Except.error e

/-! ### Theorems -/

/-- Within a list of version strings, `sb` dominates every version that
parses and satisfies the range. -/
def SatUB (range : SemVer → Bool) (sb : SemVer) (l : List String) : Prop :=
  ∀ w ∈ l, ∀ sw, parseSemVer w = some sw → range sw = true → svLt sb sw = false

/-- No version string in the list both parses and satisfies the range. -/
def NoSat (range : SemVer → Bool) (l : List String) : Prop :=
  ∀ w ∈ l, ∀ sw, parseSemVer w = some sw → range sw = false

/-- Invariant of the `maxSatisfyingAux` fold over the processed prefix. -/
def GoodAcc (range : SemVer → Bool) (l : List String) :
    Option (String × SemVer) → Prop
  | none => NoSat range l
  | some (b, sb) =>
    b ∈ l ∧ parseSemVer b = some sb ∧ range sb = true ∧ SatUB range sb l

theorem svLt_iff (a b : SemVer) :
    svLt a b = true ↔
      (a.major < b.major ∨ (a.major = b.major ∧
        (a.minor < b.minor ∨ (a.minor = b.minor ∧ a.patch < b.patch)))) := by
  simp [svLt, Nat.blt_eq]

theorem svLt_irrefl (a : SemVer) : svLt a a = false := by
  rw [← Bool.not_eq_true, svLt_iff]
  omega

theorem svLt_shift (a b c : SemVer) (h1 : svLt a c = true) (h2 : svLt a b = false) :
    svLt c b = false := by
  rw [← Bool.not_eq_true] at h2 ⊢
  rw [svLt_iff] at h1 h2 ⊢
  omega

theorem goodAcc_extend_skip (range : SemVer → Bool) (l : List String) (v : String)
    (acc : Option (String × SemVer))
    (hv : ∀ sv, parseSemVer v = some sv → range sv = false)
    (h : GoodAcc range l acc) : GoodAcc range (l ++ [v]) acc := by
  match acc with
  | none =>
    intro w hw sw hp
    rcases List.mem_append.1 hw with h' | h'
    · exact h w h' sw hp
    · rcases List.mem_singleton.1 h' with rfl
      exact hv sw hp
  | some (b, sb) =>
    obtain ⟨hmem, hps, hr, hub⟩ := h
    refine ⟨List.mem_append.2 (Or.inl hmem), hps, hr, ?_⟩
    intro w hw sw hp hsw
    rcases List.mem_append.1 hw with h' | h'
    · exact hub w h' sw hp hsw
    · rcases List.mem_singleton.1 h' with rfl
      exact absurd hsw (by simp [hv sw hp])

theorem goodAcc_extend_sat (range : SemVer → Bool) (l : List String) (v : String)
    (sv : SemVer) (acc : Option (String × SemVer))
    (hp : parseSemVer v = some sv) (hr : range sv = true)
    (h : GoodAcc range l acc) : GoodAcc range (l ++ [v]) (pickBetter acc v sv) := by
  match acc with
  | none =>
    refine ⟨List.mem_append.2 (Or.inr (List.mem_singleton.2 rfl)), hp, hr, ?_⟩
    intro w hw sw hpw hsw
    rcases List.mem_append.1 hw with h' | h'
    · exact absurd hsw (by simp [h w h' sw hpw])
    · rcases List.mem_singleton.1 h' with rfl
      rw [hp] at hpw
      cases hpw
      exact svLt_irrefl sv
  | some (b, sb) =>
    obtain ⟨hmem, hps, hrb, hub⟩ := h
    show GoodAcc range (l ++ [v]) (if svLt sb sv then some (v, sv) else some (b, sb))
    by_cases hlt : svLt sb sv = true
    · rw [if_pos hlt]
      refine ⟨List.mem_append.2 (Or.inr (List.mem_singleton.2 rfl)), hp, hr, ?_⟩
      intro w hw sw hpw hsw
      rcases List.mem_append.1 hw with h' | h'
      · exact svLt_shift sb sw sv hlt (hub w h' sw hpw hsw)
      · rcases List.mem_singleton.1 h' with rfl
        rw [hp] at hpw
        cases hpw
        exact svLt_irrefl sv
    · rw [Bool.not_eq_true] at hlt
      rw [if_neg (by simp [hlt])]
      refine ⟨List.mem_append.2 (Or.inl hmem), hps, hrb, ?_⟩
      intro w hw sw hpw hsw
      rcases List.mem_append.1 hw with h' | h'
      · exact hub w h' sw hpw hsw
      · rcases List.mem_singleton.1 h' with rfl
        rw [hp] at hpw
        cases hpw
        exact hlt

theorem maxSatisfyingAux_good (range : SemVer → Bool) (rest : List String) :
    ∀ (processed : List String) (acc : Option (String × SemVer)),
      GoodAcc range processed acc →
      GoodAcc range (processed ++ rest) (maxSatisfyingAux range rest acc) := by
  induction rest with
  | nil =>
    intro processed acc h
    simpa [maxSatisfyingAux] using h
  | cons v rest ih =>
    intro processed acc h
    have hsplit : processed ++ v :: rest = (processed ++ [v]) ++ rest := by simp
    rw [hsplit]
    cases hp : parseSemVer v with
    | none =>
      rw [show maxSatisfyingAux range (v :: rest) acc = maxSatisfyingAux range rest acc by
        simp [maxSatisfyingAux, hp]]
      exact ih (processed ++ [v]) acc
        (goodAcc_extend_skip range processed v acc (fun sv hsv => by rw [hp] at hsv; cases hsv) h)
    | some sv =>
      by_cases hr : range sv = true
      · rw [show maxSatisfyingAux range (v :: rest) acc
            = maxSatisfyingAux range rest (pickBetter acc v sv) by
          simp [maxSatisfyingAux, hp, hr]]
        exact ih (processed ++ [v]) (pickBetter acc v sv)
          (goodAcc_extend_sat range processed v sv acc hp hr h)
      · rw [Bool.not_eq_true] at hr
        rw [show maxSatisfyingAux range (v :: rest) acc = maxSatisfyingAux range rest acc by
          simp [maxSatisfyingAux, hp, hr]]
        exact ih (processed ++ [v]) acc
          (goodAcc_extend_skip range processed v acc
            (fun sv' hsv' => by rw [hp] at hsv'; cases hsv'; exact hr) h)

theorem maxSatisfying_good (versions : List String) (range : SemVer → Bool) :
    GoodAcc range versions (maxSatisfyingAux range versions none) := by
  have h := maxSatisfyingAux_good range versions [] none (by intro w hw; cases hw)
  simpa using h

theorem maxSatisfying_ok_spec (versions : List String) (range : SemVer → Bool)
    (v : String) (h : maxSatisfying versions range = some v) :
    v ∈ versions ∧ ∃ sv, parseSemVer v = some sv ∧ range sv = true ∧
      SatUB range sv versions := by
  have hg := maxSatisfying_good versions range
  unfold maxSatisfying at h
  cases haux : maxSatisfyingAux range versions none with
  | none => rw [haux] at h; cases h
  | some bs =>
    obtain ⟨b, sb⟩ := bs
    rw [haux] at h hg
    cases h
    obtain ⟨hmem, hps, hr, hub⟩ := hg
    exact ⟨hmem, sb, hps, hr, hub⟩

theorem maxSatisfying_none_spec (versions : List String) (range : SemVer → Bool) :
    maxSatisfying versions range = none ↔ NoSat range versions := by
  have hg := maxSatisfying_good versions range
  unfold maxSatisfying
  cases haux : maxSatisfyingAux range versions none with
  | none =>
    rw [haux] at hg
    simp only [Option.map_none']
    exact ⟨fun _ => hg, fun _ => by trivial⟩
  | some bs =>
    obtain ⟨b, sb⟩ := bs
    rw [haux] at hg
    obtain ⟨hmem, hps, hr, _⟩ := hg
    simp only [Option.map_some']
    constructor
    · intro h; cases h
    · intro hns
      exact absurd hr (by simp [hns b hmem sb hps])

/-- C1: version resolution first strips a leading `v` from each index
version string and then returns the maximum version (under
semantic-version ordering) in the index that satisfies the selector; it
fails with the no-satisfying-version error exactly when no stripped
version satisfies the selector.  In particular, for index versions
`["1.2.0", "1.3.0", "1.2.5"]` and selector `^1.2.0` the resolved version
is `"1.3.0"`, not the first satisfying entry. -/
theorem resolveVersion_returns_max_satisfying (index : List String)
    (range : SemVer → Bool) :
    (∀ v, resolveVersion index range = Except.ok v →
      v ∈ index.map stripV ∧ ∃ sv, parseSemVer v = some sv ∧ range sv = true ∧
        SatUB range sv (index.map stripV)) ∧
    (resolveVersion index range = Except.error Err.noSatisfyingVersion ↔
      NoSat range (index.map stripV)) ∧
    resolveVersion ["1.2.0", "1.3.0", "1.2.5"] caretOneTwoZero = Except.ok "1.3.0" := by
  refine ⟨?_, ?_, by decide⟩
  · intro v h
    simp only [resolveVersion] at h
    cases hms : maxSatisfying (index.map stripV) range with
    | none => rw [hms] at h; cases h
    | some m =>
      rw [hms] at h
      cases h
      exact maxSatisfying_ok_spec (index.map stripV) range v hms
  · simp only [resolveVersion]
    cases hms : maxSatisfying (index.map stripV) range with
    | none =>
      simp only
      constructor
      · intro _; exact (maxSatisfying_none_spec (index.map stripV) range).1 hms
      · intro _; trivial
    | some m =>
      simp only
      constructor
      · intro h; cases h
      · intro hns
        have h0 : maxSatisfying (index.map stripV) range = none :=
          (maxSatisfying_none_spec (index.map stripV) range).2 hns
        rw [hms] at h0
        cases h0

/-- Witness for C1: instantiated at the spec's worked example, the resolved
version `"1.3.0"` is in the stripped index and satisfies `^1.2.0`. -/
theorem resolveVersion_returns_max_satisfying_witness :
    resolveVersion ["1.2.0", "1.3.0", "1.2.5"] caretOneTwoZero = Except.ok "1.3.0" ∧
    "1.3.0" ∈ (["1.2.0", "1.3.0", "1.2.5"].map stripV) :=
  ⟨(resolveVersion_returns_max_satisfying ["1.2.0", "1.3.0", "1.2.5"] caretOneTwoZero).2.2,
   ((resolveVersion_returns_max_satisfying ["1.2.0", "1.3.0", "1.2.5"] caretOneTwoZero).1
      "1.3.0" (by decide)).1⟩

theorem validateShasum_ok_path (digestOf : String → List Nat)
    (files : String → Option String) (p e x : String)
    (h : (validateShasum digestOf files p e).1 = Except.ok x) : x = p := by
  cases hf : files p with
  | none => simp only [validateShasum, hf] at h; cases h
  | some c =>
    simp only [validateShasum, hf] at h
    by_cases hx : hexEncode (digestOf c) = e
    · rw [if_pos hx] at h; cases h; rfl
    · rw [if_neg hx] at h; cases h

theorem validateShasum_log (digestOf : String → List Nat)
    (files : String → Option String) (p e : String) :
    (validateShasum digestOf files p e).2 = [Eff.readF p] := by
  cases hf : files p with
  | none => simp [validateShasum, hf]
  | some c =>
    simp only [validateShasum, hf]
    by_cases hx : hexEncode (digestOf c) = e
    · rw [if_pos hx]
    · rw [if_neg hx]

theorem hexDigitChar_not_upper : ∀ n, n < 16 → (hexDigitChar n).isUpper = false := by
  decide

theorem hexEncode_data (b : Nat) (rest : List Nat) :
    (hexEncode (b :: rest)).data =
      hexDigitChar (b / 16 % 16) :: hexDigitChar (b % 16) :: (hexEncode rest).data := rfl

theorem hexEncode_lowercase (bytes : List Nat) :
    ∀ ch ∈ (hexEncode bytes).data, ch.isUpper = false := by
  induction bytes with
  | nil => intro ch hch; cases hch
  | cons b rest ih =>
    intro ch hch
    rw [hexEncode_data, List.mem_cons, List.mem_cons] at hch
    rcases hch with rfl | rfl | h
    · exact hexDigitChar_not_upper _ (Nat.mod_lt _ (by omega))
    · exact hexDigitChar_not_upper _ (Nat.mod_lt _ (by omega))
    · exact ih ch h

/-- C2 (corrected to the code for C3's reason elsewhere; this claim reads
digests as strings): on a cache hit the pre-existing file is read and its
digest recomputed; the request fails with the checksum-mismatch error when
the recomputed digest differs from the manifest entry, and succeeds when
they agree. -/
theorem ensure_verifies_cached_file (digestOf : String → List Nat)
    (files net : String → Option String)
    (fileUrl fileName cacheDir expected content : String) (shasums : ShasumMap)
    (hfile : files (pathJoin cacheDir fileName) = some content)
    (hsum : shasums fileName = some expected) :
    (downloadAndCacheFile digestOf files net fileUrl fileName cacheDir shasums).1 =
      (if hexEncode (digestOf content) = expected
        then Except.ok (pathJoin cacheDir fileName)
        else Except.error Err.checksumMismatch) ∧
    Eff.readF (pathJoin cacheDir fileName) ∈
      (downloadAndCacheFile digestOf files net fileUrl fileName cacheDir shasums).2 := by
  simp only [downloadAndCacheFile, hsum, hfile, validateShasum]
  by_cases hx : hexEncode (digestOf content) = expected
  · simp [hx]
  · simp [hx]

/-- Witness for C2: a pre-existing cache file whose content hashes to a
digest other than the manifest entry makes the request fail with the
checksum-mismatch error. -/
theorem ensure_verifies_cached_file_witness :
    (fun (_ : String) => some "data") (pathJoin "cache/1.2.0" "f.tar.gz") = some "data" ∧
    (fun k => if k = "f.tar.gz" then some "ffff" else none) "f.tar.gz" = some "ffff" ∧
    (downloadAndCacheFile (fun _ => [171]) (fun _ => some "data") (fun _ => none)
        "https://iojs.org/dist/v1.2.0/f.tar.gz" "f.tar.gz" "cache/1.2.0"
        (fun k => if k = "f.tar.gz" then some "ffff" else none)).1 =
      (if hexEncode ((fun (_ : String) => [171]) "data") = "ffff"
        then Except.ok (pathJoin "cache/1.2.0" "f.tar.gz")
        else Except.error Err.checksumMismatch) :=
  ⟨by decide, by decide,
   (ensure_verifies_cached_file (fun _ => [171]) (fun _ => some "data") (fun _ => none)
      "https://iojs.org/dist/v1.2.0/f.tar.gz" "f.tar.gz" "cache/1.2.0" "ffff" "data"
      (fun k => if k = "f.tar.gz" then some "ffff" else none) (by decide) (by decide)).1⟩

/-- C3 counterexample: the computed digest `ab` and the manifest entry `AB`
denote the same byte sequence (they agree after lowercasing), yet
verification rejects with a checksum mismatch — the comparison is `===`,
not case-insensitive. -/
theorem validateShasum_case_sensitive_cex :
    (validateShasum (fun _ => [171]) (fun _ => some "content")
        "cache/1.2.0/f.tar.gz" "AB").1 = Except.error Err.checksumMismatch ∧
    "AB".data.map Char.toLower =
      (hexEncode ((fun (_ : String) => [171]) "content")).data := by
  decide

/-- C3 amended: the computed digest is hex-encoded in lowercase and compared
with exact (case-sensitive) string equality against the manifest entry:
verification succeeds iff the manifest entry is literally the lowercase
hex encoding of the file's digest, so an uppercase manifest entry fails
even when it denotes the same bytes. -/
theorem validateShasum_exact_lowercase_match (digestOf : String → List Nat)
    (files : String → Option String) (p expected : String) :
    ((validateShasum digestOf files p expected).1 = Except.ok p ↔
      ∃ c, files p = some c ∧ hexEncode (digestOf c) = expected) ∧
    (∀ bytes, ∀ ch ∈ (hexEncode bytes).data, ch.isUpper = false) := by
  refine ⟨?_, hexEncode_lowercase⟩
  cases hf : files p with
  | none =>
    simp only [validateShasum, hf]
    constructor
    · intro h; cases h
    · rintro ⟨c, hc, _⟩; cases hc
  | some c =>
    simp only [validateShasum, hf]
    constructor
    · intro h
      by_cases hx : hexEncode (digestOf c) = expected
      · exact ⟨c, rfl, hx⟩
      · rw [if_neg hx] at h; cases h
    · rintro ⟨c', hc', hx⟩
      cases hc'
      rw [if_pos hx]

/-- Witness for C3's amended theorem: a matching lowercase manifest entry
verifies successfully. -/
theorem validateShasum_exact_lowercase_match_witness :
    ((validateShasum (fun _ => [171]) (fun _ => some "content") "p" "ab").1 = Except.ok "p" ↔
      ∃ c, (fun (_ : String) => some "content") "p" = some c ∧
        hexEncode ((fun (_ : String) => [171]) c) = "ab") ∧
    (∀ bytes, ∀ ch ∈ (hexEncode bytes).data, ch.isUpper = false) :=
  validateShasum_exact_lowercase_match (fun _ => [171]) (fun _ => some "content") "p" "ab"

/-- C7: a file name absent from the checksum manifest makes the request
fail with the missing-checksum error before any filesystem or network
operation (the effect log is empty), and a present entry rules this
failure mode out. -/
theorem ensure_missing_checksum_fatal_and_first (digestOf : String → List Nat)
    (files net : String → Option String)
    (fileUrl fileName cacheDir : String) (shasums : ShasumMap) :
    (shasums fileName = none →
      downloadAndCacheFile digestOf files net fileUrl fileName cacheDir shasums =
        (Except.error Err.missingChecksum, [])) ∧
    (∀ e, shasums fileName = some e →
      (downloadAndCacheFile digestOf files net fileUrl fileName cacheDir shasums).1 ≠
        Except.error Err.missingChecksum) := by
  constructor
  · intro h
    simp [downloadAndCacheFile, h]
  · intro e he
    simp only [downloadAndCacheFile, he]
    cases hf : files (pathJoin cacheDir fileName) with
    | some c =>
      simp only [validateShasum, hf]
      by_cases hx : hexEncode (digestOf c) = e
      · simp [hx]
      · simp [hx]
    | none =>
      cases hn : net fileUrl with
      | none => simp
      | some body =>
        simp only [validateShasum, if_pos rfl]
        by_cases hx : hexEncode (digestOf body) = e
        · simp [hx]
        · simp [hx]

/-- Witness for C7: both branches instantiated — an absent entry fails with
an empty log, a present entry does not produce the missing-checksum error. -/
theorem ensure_missing_checksum_fatal_and_first_witness :
    ((fun (_ : String) => (none : Option String)) "f.tar.gz" = none →
      downloadAndCacheFile (fun _ => [0]) (fun _ => none) (fun _ => none)
        "u" "f.tar.gz" "cache/1.2.0" (fun _ => none) =
        (Except.error Err.missingChecksum, [])) ∧
    downloadAndCacheFile (fun _ => [0]) (fun _ => none) (fun _ => none)
      "u" "f.tar.gz" "cache/1.2.0" (fun _ => none) =
      (Except.error Err.missingChecksum, []) :=
  ⟨(ensure_missing_checksum_fatal_and_first (fun _ => [0]) (fun _ => none) (fun _ => none)
      "u" "f.tar.gz" "cache/1.2.0" (fun _ => none)).1,
   (ensure_missing_checksum_fatal_and_first (fun _ => [0]) (fun _ => none) (fun _ => none)
      "u" "f.tar.gz" "cache/1.2.0" (fun _ => none)).1 (by decide)⟩

/-- C8: when the cache file pre-exists and its content hashes to the
manifest entry, the request succeeds with the cached path and the effect
log contains no network operation at all. -/
theorem ensure_cache_hit_skips_network (digestOf : String → List Nat)
    (files net : String → Option String)
    (fileUrl fileName cacheDir expected content : String) (shasums : ShasumMap)
    (hfile : files (pathJoin cacheDir fileName) = some content)
    (hsum : shasums fileName = some expected)
    (hmatch : hexEncode (digestOf content) = expected) :
    (downloadAndCacheFile digestOf files net fileUrl fileName cacheDir shasums).1 =
      Except.ok (pathJoin cacheDir fileName) ∧
    ∀ u, Eff.netGet u ∉
      (downloadAndCacheFile digestOf files net fileUrl fileName cacheDir shasums).2 := by
  constructor
  · simp [downloadAndCacheFile, hsum, hfile, validateShasum, hmatch]
  · intro u hu
    simp only [downloadAndCacheFile, hsum, hfile] at hu
    rw [validateShasum_log] at hu
    simp at hu

/-- Witness for C8: a concrete matching cache hit succeeds without any
network request. -/
theorem ensure_cache_hit_skips_network_witness :
    (downloadAndCacheFile (fun _ => [171]) (fun _ => some "data") (fun _ => none)
        "u" "f.tar.gz" "cache/1.2.0" (fun k => if k = "f.tar.gz" then some "ab" else none)).1 =
      Except.ok (pathJoin "cache/1.2.0" "f.tar.gz") ∧
    ∀ u, Eff.netGet u ∉
      (downloadAndCacheFile (fun _ => [171]) (fun _ => some "data") (fun _ => none)
        "u" "f.tar.gz" "cache/1.2.0" (fun k => if k = "f.tar.gz" then some "ab" else none)).2 :=
  ensure_cache_hit_skips_network (fun _ => [171]) (fun _ => some "data") (fun _ => none)
    "u" "f.tar.gz" "cache/1.2.0" "ab" "data"
    (fun k => if k = "f.tar.gz" then some "ab" else none)
    (by decide) (by decide) (by decide)

/-- C10: whenever the request succeeds, the resolved value is exactly the
per-version cache directory joined with the file name, and every
filesystem operation the request performed (existence check, write, read)
targeted that same path. -/
theorem ensure_success_returns_cache_path (digestOf : String → List Nat)
    (files net : String → Option String)
    (fileUrl fileName cacheDir p : String) (shasums : ShasumMap)
    (h : (downloadAndCacheFile digestOf files net fileUrl fileName cacheDir shasums).1 =
      Except.ok p) :
    p = pathJoin cacheDir fileName ∧
    (∀ q, Eff.fsExists q ∈
      (downloadAndCacheFile digestOf files net fileUrl fileName cacheDir shasums).2 →
        q = pathJoin cacheDir fileName) ∧
    (∀ q, Eff.readF q ∈
      (downloadAndCacheFile digestOf files net fileUrl fileName cacheDir shasums).2 →
        q = pathJoin cacheDir fileName) ∧
    (∀ q, Eff.writeF q ∈
      (downloadAndCacheFile digestOf files net fileUrl fileName cacheDir shasums).2 →
        q = pathJoin cacheDir fileName) := by
  cases hs : shasums fileName with
  | none => simp only [downloadAndCacheFile, hs] at h; cases h
  | some expected =>
    cases hf : files (pathJoin cacheDir fileName) with
    | some c =>
      simp only [downloadAndCacheFile, hs, hf] at h ⊢
      have hp := validateShasum_ok_path digestOf files (pathJoin cacheDir fileName) expected p h
      refine ⟨hp, ?_, ?_, ?_⟩ <;>
        · intro q hq
          rw [validateShasum_log] at hq
          simp at hq
          try exact hq
    | none =>
      cases hn : net fileUrl with
      | none => simp only [downloadAndCacheFile, hs, hf, hn] at h; cases h
      | some body =>
        simp only [downloadAndCacheFile, hs, hf, hn] at h ⊢
        have hp := validateShasum_ok_path digestOf
          (fun q => if q = pathJoin cacheDir fileName then some body else files q)
          (pathJoin cacheDir fileName) expected p h
        refine ⟨hp, ?_, ?_, ?_⟩ <;>
          · intro q hq
            rw [validateShasum_log] at hq
            simp at hq
            try exact hq

/-- Witness for C10: on a concrete successful cache hit the returned path is
the joined cache path. -/
theorem ensure_success_returns_cache_path_witness :
    (downloadAndCacheFile (fun _ => [171]) (fun _ => some "data") (fun _ => none)
        "u" "f.tar.gz" "cache/1.2.0" (fun k => if k = "f.tar.gz" then some "ab" else none)).1 =
      Except.ok "cache/1.2.0/f.tar.gz" ∧
    "cache/1.2.0/f.tar.gz" = pathJoin "cache/1.2.0" "f.tar.gz" :=
  ⟨by decide,
   (ensure_success_returns_cache_path (fun _ => [171]) (fun _ => some "data") (fun _ => none)
      "u" "f.tar.gz" "cache/1.2.0" "cache/1.2.0/f.tar.gz"
      (fun k => if k = "f.tar.gz" then some "ab" else none) (by decide)).1⟩

/-- C4 counterexample: `install` produces the same success value whatever
the verified artifact paths are, and that value is `Installation` holding
only the version — the success value is limited to the version alone,
contrary to the claim that it carries the artifact paths. -/
theorem install_result_version_only_cex :
    install (Except.ok "1.2.0")
        (Except.ok "cache/1.2.0/iojs-v1.2.0-linux-x64.tar.gz")
        (Except.ok "cache/1.2.0/iojs-v1.2.0.tar.xz")
      = install (Except.ok "1.2.0") (Except.ok "elsewhere/a") (Except.ok "elsewhere/b") ∧
    install (Except.ok "1.2.0")
        (Except.ok "cache/1.2.0/iojs-v1.2.0-linux-x64.tar.gz")
        (Except.ok "cache/1.2.0/iojs-v1.2.0.tar.xz")
      = Except.ok ⟨"1.2.0"⟩ := by
  decide

/-- C4 amended: on success `install` hands the collaborator a value built
from the resolved version alone (`new Installation(version)`); the two
artifact results must have succeeded for `install` to succeed, but their
paths are not part of the success value. -/
theorem install_succeeds_with_version_only (a b c : Except Err String)
    (r : Installation) :
    install a b c = Except.ok r ↔
      a = Except.ok r.version ∧ (∃ p, b = Except.ok p) ∧ (∃ s, c = Except.ok s) := by
  obtain ⟨rv⟩ := r
  cases a <;> cases b <;> cases c <;> simp [install, Installation.mk.injEq, eq_comm]

/-- Witness for C4's amended theorem at concrete arguments. -/
theorem install_succeeds_with_version_only_witness :
    install (Except.ok "1.2.0") (Except.ok "a") (Except.ok "b") = Except.ok ⟨"1.2.0"⟩ ↔
      (Except.ok "1.2.0" : Except Err String)
          = Except.ok (Installation.version ⟨"1.2.0"⟩) ∧
      (∃ p, (Except.ok "a" : Except Err String) = Except.ok p) ∧
      (∃ s, (Except.ok "b" : Except Err String) = Except.ok s) :=
  install_succeeds_with_version_only (Except.ok "1.2.0") (Except.ok "a") (Except.ok "b")
    ⟨"1.2.0"⟩

theorem buildSession_ok_of_valid (validRange : String → Option String)
    (digestOf : String → List Nat) (range : SemVer → Bool) (w : World)
    (selector platform arch r : String) (hr : validRange selector = some r) :
    ∃ out log,
      buildSession validRange digestOf range w selector platform arch =
        (Except.ok out, log) := by
  simp only [buildSession, hr]
  repeat' split
  all_goals exact ⟨_, _, rfl⟩

/-- C9: an invalid selector (one `semver.validRange` rejects) makes
construction fail immediately with the invalid-selector error, before any
network or filesystem activity (the effect log is empty); a valid selector
never produces that construction failure. -/
theorem constructor_validates_selector (validRange : String → Option String)
    (digestOf : String → List Nat) (range : SemVer → Bool) (w : World)
    (selector platform arch : String) :
    (validRange selector = none →
      buildSession validRange digestOf range w selector platform arch =
        (Except.error Err.invalidSelector, [])) ∧
    (∀ r, validRange selector = some r →
      (buildSession validRange digestOf range w selector platform arch).1 ≠
        Except.error Err.invalidSelector) := by
  constructor
  · intro h
    simp [buildSession, h]
  · intro r hr
    obtain ⟨out, log, heq⟩ :=
      buildSession_ok_of_valid validRange digestOf range w selector platform arch r hr
    rw [heq]
    simp

/-- Witness for C9: a selector rejected by the range validator fails fast
with an empty log, a validated one does not fail this way. -/
theorem constructor_validates_selector_witness :
    ((fun (s : String) => if s = "^1.2.0" then some s else none) "not a range" = none →
      buildSession (fun s => if s = "^1.2.0" then some s else none) (fun _ => [0])
        caretOneTwoZero ⟨none, fun _ => none, fun _ => none, fun _ => true⟩
        "not a range" "linux" "x64" = (Except.error Err.invalidSelector, [])) ∧
    buildSession (fun s => if s = "^1.2.0" then some s else none) (fun _ => [0])
      caretOneTwoZero ⟨none, fun _ => none, fun _ => none, fun _ => true⟩
      "not a range" "linux" "x64" = (Except.error Err.invalidSelector, []) :=
  ⟨(constructor_validates_selector (fun s => if s = "^1.2.0" then some s else none)
      (fun _ => [0]) caretOneTwoZero ⟨none, fun _ => none, fun _ => none, fun _ => true⟩
      "not a range" "linux" "x64").1,
   (constructor_validates_selector (fun s => if s = "^1.2.0" then some s else none)
      (fun _ => [0]) caretOneTwoZero ⟨none, fun _ => none, fun _ => none, fun _ => true⟩
      "not a range" "linux" "x64").1 (by decide)⟩

theorem matchGroups_cons (c : Char) (rest : List Char) :
    matchGroups (c :: rest) =
      match matchSep rest with
      | some q => some ([c], q)
      | none =>
        match matchGroups rest with
        | some (p, q) => some (c :: p, q)
        | none => none := rfl

theorem matchTailAux_full (l : List Char) (hne : l ≠ [])
    (hlast : ∀ c, l.getLast? = some c → isWS c = false) :
    matchTailAux l = some l := by
  induction l with
  | nil => exact absurd rfl hne
  | cons c rest ih =>
    cases rest with
    | nil => simp [matchTailAux]
    | cons d rest' =>
      have hlast' : ∀ c', (d :: rest').getLast? = some c' → isWS c' = false := by
        intro c' hc'
        exact hlast c' (by rw [List.getLast?_cons_cons]; exact hc')
      have hx : ∃ x, (d :: rest').getLast? = some x := by
        cases hL : (d :: rest').getLast? with
        | none => rw [List.getLast?_eq_none_iff] at hL; cases hL
        | some x => exact ⟨x, rfl⟩
      obtain ⟨x, hxl⟩ := hx
      have hxmem : x ∈ d :: rest' := List.mem_of_getLast?_eq_some hxl
      have hxws : isWS x = false := hlast' x hxl
      have hall : (d :: rest').all isWS = false := by
        rw [← Bool.not_eq_true, List.all_eq_true]
        intro hf
        rw [hf x hxmem] at hxws
        cases hxws
      rw [show matchTailAux (c :: d :: rest')
          = (matchTailAux (d :: rest')).map (fun q => c :: q) by
        simp [matchTailAux, hall]]
      rw [ih (by simp) hlast']
      rfl

theorem matchSepMore_skips_ws (f : List Char) (fc : Char) (frest : List Char)
    (hf : f = fc :: frest) (hfc : isWS fc = false)
    (htail : matchTailAux f = some f) :
    ∀ wl : List Char, (∀ c ∈ wl, isWS c = true) → matchSepMore (wl ++ f) = some f := by
  intro wl
  induction wl with
  | nil =>
    intro _
    subst hf
    simp [matchSepMore, hfc, htail]
  | cons x xs ih =>
    intro hwl
    have hx : isWS x = true := hwl x (by simp)
    have ih' := ih (fun c hc => hwl c (by simp [hc]))
    rw [List.cons_append]
    simp [matchSepMore, hx, ih']

theorem matchSep_after_ws (f : List Char) (fc : Char) (frest : List Char)
    (hf : f = fc :: frest) (hfc : isWS fc = false)
    (htail : matchTailAux f = some f)
    (wl : List Char) (hwlne : wl ≠ []) (hwl : ∀ c ∈ wl, isWS c = true) :
    matchSep (wl ++ f) = some f := by
  cases wl with
  | nil => exact absurd rfl hwlne
  | cons x xs =>
    have hx : isWS x = true := hwl x (by simp)
    rw [List.cons_append]
    simp only [matchSep, hx, if_pos]
    exact matchSepMore_skips_ws f fc frest hf hfc htail xs (fun c hc => hwl c (by simp [hc]))

theorem matchSep_none_of_head (l : List Char) (c : Char) (h : l.head? = some c)
    (hc : isWS c = false) : matchSep l = none := by
  cases l with
  | nil => rfl
  | cons x xs =>
    have : x = c := by
      rw [List.head?_cons] at h
      exact Option.some.inj h
    subst this
    simp [matchSep, hc]

theorem matchGroups_split (d : List Char) (hd : d ≠ [])
    (hdws : ∀ c ∈ d, isWS c = false)
    (wl : List Char) (hwlne : wl ≠ []) (hwl : ∀ c ∈ wl, isWS c = true)
    (f : List Char) (fc : Char) (frest : List Char)
    (hf : f = fc :: frest) (hfc : isWS fc = false)
    (hfl : ∀ c, f.getLast? = some c → isWS c = false) :
    matchGroups (d ++ wl ++ f) = some (d, f) := by
  have htail : matchTailAux f = some f :=
    matchTailAux_full f (by rw [hf]; simp) hfl
  induction d with
  | nil => exact absurd rfl hd
  | cons c ds ih =>
    cases ds with
    | nil =>
      have hsep : matchSep (wl ++ f) = some f :=
        matchSep_after_ws f fc frest hf hfc htail wl hwlne hwl
      simp [matchGroups, hsep]
    | cons e ds' =>
      have he : isWS e = false := hdws e (by simp)
      have hsep : matchSep (e :: (ds' ++ wl ++ f)) = none :=
        matchSep_none_of_head _ e (by simp) he
      have ihh := ih (by simp) (fun c' hc' => hdws c' (by simp at hc' ⊢; tauto))
      rw [show (e :: ds') ++ wl ++ f = e :: (ds' ++ wl ++ f) from by simp] at ihh
      rw [show (c :: e :: ds') ++ wl ++ f = c :: (e :: (ds' ++ wl ++ f)) from by simp]
      rw [matchGroups_cons, hsep, ihh]

/-- C6: manifest parsing is line-oriented: a line of the form digest,
whitespace, filename yields the entry mapping that filename to that
digest; a line that does not match the pattern is skipped without failing
the parse; when two matched lines carry the same filename the later
digest overwrites the earlier one; and a manifest parsing to zero entries
is a normal (non-error) result. -/
theorem parseShasum_line_policy :
    (∀ d wl f : List Char,
      d ≠ [] → (∀ c ∈ d, isWS c = false) →
      wl ≠ [] → (∀ c ∈ wl, isWS c = true) →
      f.head?.map isWS = some false →
      (f.getLast?.map isWS) = some false →
      matchLine (String.mk (d ++ wl ++ f)) = some (String.mk d, String.mk f)) ∧
    (∀ lines bad, matchLine bad = none →
      ∀ k, parseShasumLines (lines ++ [bad]) k = parseShasumLines lines k) ∧
    (∀ lines line digest fname, matchLine line = some (digest, fname) →
      parseShasumLines (lines ++ [line]) fname = some digest) ∧
    parseShasumText "abcd1234  file.tar.gz" "file.tar.gz" = some "abcd1234" ∧
    (∀ k, parseShasumText "abcd1234" k = none) := by
  refine ⟨?_, ?_, ?_, by decide, ?_⟩
  · intro d wl f hd hdws hwlne hwl hfh hfl
    obtain ⟨fc, frest, hf⟩ : ∃ fc frest, f = fc :: frest := by
      cases f with
      | nil => cases hfh
      | cons fc frest => exact ⟨fc, frest, rfl⟩
    have hfc : isWS fc = false := by
      rw [hf] at hfh
      simp only [List.head?_cons, Option.map_some'] at hfh
      exact Option.some.inj hfh
    have hfl' : ∀ c, f.getLast? = some c → isWS c = false := by
      intro c hc
      rw [hc, Option.map_some'] at hfl
      exact Option.some.inj hfl
    have hsplit := matchGroups_split d hd hdws wl hwlne hwl f fc frest hf hfc hfl'
    simp only [matchLine, hsplit]
  · intro lines bad hbad k
    simp [parseShasumLines, List.foldl_append, parseShasumLine, hbad]
  · intro lines line digest fname hline
    simp [parseShasumLines, List.foldl_append, parseShasumLine, hline, addEntry]
  · intro k
    have h1 : splitLines "abcd1234" = ["abcd1234"] := by decide
    have h2 : matchLine "abcd1234" = none := by decide
    simp [parseShasumText, h1, parseShasumLines, parseShasumLine, h2, emptyShasums]

/-- Witness for C6: the spec's example line, decomposed into digest,
separator and filename parts, parses to the expected entry. -/
theorem parseShasum_line_policy_witness :
    matchLine (String.mk ("abcd1234".data ++ "  ".data ++ "file.tar.gz".data)) =
      some (String.mk "abcd1234".data, String.mk "file.tar.gz".data) :=
  (parseShasum_line_policy).1 "abcd1234".data "  ".data "file.tar.gz".data
    (by decide) (by decide) (by decide) (by decide) (by decide) (by decide)

theorem string_eq_of_data_eq {s t : String} (h : s.data = t.data) : s = t := by
  cases s
  cases t
  exact congrArg String.mk h

theorem head_clash {P A B : List Char} {a b : Char} (ha : A.head? = some a)
    (hb : B.head? = some b) (hab : a ≠ b) (h : P ++ A = P ++ B) : False := by
  have h2 := List.append_cancel_left h
  rw [h2, hb] at ha
  exact hab (Option.some.inj ha).symm

theorem distFileUrl_ne_indexJsonUrl (v f : String) : distFileUrl v f ≠ indexJsonUrl := by
  intro h
  have hd := congrArg String.data h
  simp only [distFileUrl, versionBaseUrl, indexJsonUrl, String.data_append,
    List.append_assoc] at hd
  exact head_clash (A := "v".data ++ (v.data ++ ("/".data ++ f.data)))
    (B := "index.json".data) rfl rfl (by decide) hd

theorem shasumsFileUrl_ne_indexJsonUrl (v : String) :
    shasumsFileUrl v ≠ indexJsonUrl :=
  distFileUrl_ne_indexJsonUrl v "SHASUMS256.txt"

theorem distFileUrl_file_inj (v f g : String) (h : distFileUrl v f = distFileUrl v g) :
    f = g := by
  have hd := congrArg String.data h
  simp only [distFileUrl, versionBaseUrl, String.data_append, List.append_assoc] at hd
  have h1 := List.append_cancel_left hd
  have h2 := List.append_cancel_left h1
  have h3 := List.append_cancel_left h2
  have h4 := List.append_cancel_left h3
  exact string_eq_of_data_eq h4

theorem distFileUrl_ne_shasumsFileUrl (v f : String) (hf : f.data.head? = some 'i') :
    distFileUrl v f ≠ shasumsFileUrl v := by
  intro h
  have heq : f = "SHASUMS256.txt" := distFileUrl_file_inj v f "SHASUMS256.txt" h
  rw [heq] at hf
  exact absurd (Option.some.inj hf) (by decide)

theorem installerFileName_head (v p a : String) :
    (installerFileName v p a).data.head? = some 'i' := rfl

theorem srcFileName_head (v : String) : (srcFileName v).data.head? = some 'i' := rfl

theorem getShasums_netGet_mem (files net : String → Option String)
    (cacheDir version u : String)
    (hu : Eff.netGet u ∈ (getShasums files net cacheDir version).2) :
    u = shasumsFileUrl version := by
  cases hf : files (shasumCachePath cacheDir) with
  | some content =>
    simp only [getShasums, hf] at hu
    simp at hu
  | none =>
    cases hn : net (shasumsFileUrl version) with
    | none =>
      simp only [getShasums, hf, hn] at hu
      simp at hu
      exact hu
    | some body =>
      simp only [getShasums, hf, hn] at hu
      simp at hu
      exact hu

theorem getShasums_netGet_count_le (files net : String → Option String)
    (cacheDir version u : String) :
    (getShasums files net cacheDir version).2.count (Eff.netGet u) ≤ 1 := by
  cases hf : files (shasumCachePath cacheDir) with
  | some content =>
    simp [getShasums, hf, List.count_cons]
  | none =>
    cases hn : net (shasumsFileUrl version) with
    | none =>
      simp only [getShasums, hf, hn]
      simp [List.count_cons]
      split <;> simp
    | some body =>
      simp only [getShasums, hf, hn]
      simp [List.count_cons]
      split <;> simp

theorem getShasums_netGet_count_zero (files net : String → Option String)
    (cacheDir version u : String) (hne : u ≠ shasumsFileUrl version) :
    (getShasums files net cacheDir version).2.count (Eff.netGet u) = 0 :=
  List.count_eq_zero.2
    (fun hmem => hne (getShasums_netGet_mem files net cacheDir version u hmem))

theorem dacf_netGet_mem (digestOf : String → List Nat)
    (files net : String → Option String)
    (fileUrl fileName cacheDir u : String) (shasums : ShasumMap)
    (hu : Eff.netGet u ∈
      (downloadAndCacheFile digestOf files net fileUrl fileName cacheDir shasums).2) :
    u = fileUrl := by
  cases hs : shasums fileName with
  | none =>
    simp only [downloadAndCacheFile, hs] at hu
    cases hu
  | some expected =>
    cases hf : files (pathJoin cacheDir fileName) with
    | some c =>
      simp only [downloadAndCacheFile, hs, hf] at hu
      rw [validateShasum_log] at hu
      simp at hu
    | none =>
      cases hn : net fileUrl with
      | none =>
        simp only [downloadAndCacheFile, hs, hf, hn] at hu
        simp at hu
        exact hu
      | some body =>
        simp only [downloadAndCacheFile, hs, hf, hn] at hu
        rw [validateShasum_log] at hu
        simp at hu
        exact hu

theorem dacf_netGet_count_le (digestOf : String → List Nat)
    (files net : String → Option String)
    (fileUrl fileName cacheDir u : String) (shasums : ShasumMap) :
    (downloadAndCacheFile digestOf files net fileUrl fileName cacheDir
      shasums).2.count (Eff.netGet u) ≤ 1 := by
  cases hs : shasums fileName with
  | none => simp [downloadAndCacheFile, hs]
  | some expected =>
    cases hf : files (pathJoin cacheDir fileName) with
    | some c =>
      simp only [downloadAndCacheFile, hs, hf]
      rw [show (Eff.fsExists (pathJoin cacheDir fileName) ::
          (validateShasum digestOf files (pathJoin cacheDir fileName) expected).2) =
          [Eff.fsExists (pathJoin cacheDir fileName),
            Eff.readF (pathJoin cacheDir fileName)] from by rw [validateShasum_log]]
      simp [List.count_cons]
    | none =>
      cases hn : net fileUrl with
      | none =>
        simp only [downloadAndCacheFile, hs, hf, hn]
        simp [List.count_cons]
        split <;> simp
      | some body =>
        simp only [downloadAndCacheFile, hs, hf, hn]
        rw [validateShasum_log]
        simp [List.count_cons]
        split <;> simp

theorem dacf_netGet_count_zero (digestOf : String → List Nat)
    (files net : String → Option String)
    (fileUrl fileName cacheDir u : String) (shasums : ShasumMap)
    (hne : u ≠ fileUrl) :
    (downloadAndCacheFile digestOf files net fileUrl fileName cacheDir
      shasums).2.count (Eff.netGet u) = 0 :=
  List.count_eq_zero.2 (fun hmem =>
    hne (dacf_netGet_mem digestOf files net fileUrl fileName cacheDir u shasums hmem))

/-- C5: over a whole session, the release index is fetched exactly once and
the checksum manifest at most once, however many dependents (the two
artifact downloads and the install step) consume the resolved version and
the parsed manifest: the log of a session contains one request to the
index URL and at most one request to the manifest URL of the resolved
version. -/
theorem session_fetches_index_once_manifest_at_most_once
    (validRange : String → Option String) (digestOf : String → List Nat)
    (range : SemVer → Bool) (w : World)
    (selector platform arch r : String) (out : SessionOut) (log : List Eff)
    (v : String)
    (hr : validRange selector = some r)
    (hses : buildSession validRange digestOf range w selector platform arch =
      (Except.ok out, log))
    (hv : out.version = Except.ok v) :
    log.count (Eff.netGet indexJsonUrl) = 1 ∧
    log.count (Eff.netGet (shasumsFileUrl v)) ≤ 1 := by
  have hne1 : Eff.netGet (shasumsFileUrl v) ≠ Eff.netGet indexJsonUrl := by
    intro hcon
    exact shasumsFileUrl_ne_indexJsonUrl v (by injection hcon)
  simp only [buildSession, hr] at hses
  cases hi : w.releaseIndex with
  | none =>
    simp only [hi] at hses
    have hout := Except.ok.inj (congrArg Prod.fst hses)
    rw [← hout] at hv
    cases hv
  | some index =>
    cases hrv : resolveVersion index range with
    | error e =>
      simp only [hi, hrv] at hses
      have hout := Except.ok.inj (congrArg Prod.fst hses)
      rw [← hout] at hv
      cases hv
    | ok v0 =>
      cases hmk : w.mkdirOk cacheRootDir with
      | false =>
        simp only [hi, hrv, hmk, if_true, if_false, eq_self_iff_true, Bool.false_eq_true, Bool.true_eq_false] at hses
        have hout := Except.ok.inj (congrArg Prod.fst hses)
        rw [← hout] at hv
        have hv0 : v0 = v := Except.ok.inj hv
        subst hv0
        have hlog := congrArg Prod.snd hses
        simp only at hlog
        rw [← hlog]
        constructor
        · simp [List.count_cons]
        · simp [List.count_cons, hne1]
      | true =>
        cases hmk2 : w.mkdirOk (pathJoin cacheRootDir v0) with
        | false =>
          simp only [hi, hrv, hmk, hmk2, if_true, if_false, eq_self_iff_true, Bool.false_eq_true, Bool.true_eq_false] at hses
          have hout := Except.ok.inj (congrArg Prod.fst hses)
          rw [← hout] at hv
          have hv0 : v0 = v := Except.ok.inj hv
          subst hv0
          have hlog := congrArg Prod.snd hses
          simp only at hlog
          rw [← hlog]
          constructor
          · simp [List.count_cons]
          · simp [List.count_cons, hne1]
        | true =>
          cases hsh : (getShasums w.files w.net (pathJoin cacheRootDir v0) v0).1 with
          | error e =>
            simp only [hi, hrv, hmk, hmk2, hsh, if_true, if_false, eq_self_iff_true, Bool.false_eq_true, Bool.true_eq_false] at hses
            have hout := Except.ok.inj (congrArg Prod.fst hses)
            rw [← hout] at hv
            have hv0 : v0 = v := Except.ok.inj hv
            subst hv0
            have hlog := congrArg Prod.snd hses
            simp only at hlog
            rw [← hlog]
            have hz1 : (getShasums w.files w.net (pathJoin cacheRootDir v0) v0).2.count
                (Eff.netGet indexJsonUrl) = 0 :=
              getShasums_netGet_count_zero w.files w.net (pathJoin cacheRootDir v0) v0
                indexJsonUrl (fun h => shasumsFileUrl_ne_indexJsonUrl v0 h.symm)
            constructor
            · simp [List.count_append, List.count_cons, hz1]
            · have hle := getShasums_netGet_count_le w.files w.net
                (pathJoin cacheRootDir v0) v0 (shasumsFileUrl v0)
              simp [List.count_append, List.count_cons, hne1]
              omega
          | ok shasums =>
            simp only [hi, hrv, hmk, hmk2, hsh, if_true, if_false, eq_self_iff_true, Bool.false_eq_true, Bool.true_eq_false] at hses
            have hout := Except.ok.inj (congrArg Prod.fst hses)
            rw [← hout] at hv
            have hv0 : v0 = v := Except.ok.inj hv
            subst hv0
            have hlog := congrArg Prod.snd hses
            simp only at hlog
            rw [← hlog]
            have hz1 : (getShasums w.files w.net (pathJoin cacheRootDir v0) v0).2.count
                (Eff.netGet indexJsonUrl) = 0 :=
              getShasums_netGet_count_zero w.files w.net (pathJoin cacheRootDir v0) v0
                indexJsonUrl (fun h => shasumsFileUrl_ne_indexJsonUrl v0 h.symm)
            have hzi1 : (downloadAndCacheFile digestOf w.files w.net
                (distFileUrl v0 (installerFileName v0 platform arch))
                (installerFileName v0 platform arch) (pathJoin cacheRootDir v0)
                shasums).2.count (Eff.netGet indexJsonUrl) = 0 :=
              dacf_netGet_count_zero digestOf w.files w.net _ _ _ _ shasums
                (fun h => distFileUrl_ne_indexJsonUrl v0 _ h.symm)
            have hzi2 : (downloadAndCacheFile digestOf w.files w.net
                (distFileUrl v0 (srcFileName v0)) (srcFileName v0)
                (pathJoin cacheRootDir v0) shasums).2.count
                (Eff.netGet indexJsonUrl) = 0 :=
              dacf_netGet_count_zero digestOf w.files w.net _ _ _ _ shasums
                (fun h => distFileUrl_ne_indexJsonUrl v0 _ h.symm)
            have hzs1 : (downloadAndCacheFile digestOf w.files w.net
                (distFileUrl v0 (installerFileName v0 platform arch))
                (installerFileName v0 platform arch) (pathJoin cacheRootDir v0)
                shasums).2.count (Eff.netGet (shasumsFileUrl v0)) = 0 :=
              dacf_netGet_count_zero digestOf w.files w.net _ _ _ _ shasums
                (fun h => distFileUrl_ne_shasumsFileUrl v0 _
                  (installerFileName_head v0 platform arch) h.symm)
            have hzs2 : (downloadAndCacheFile digestOf w.files w.net
                (distFileUrl v0 (srcFileName v0)) (srcFileName v0)
                (pathJoin cacheRootDir v0) shasums).2.count
                (Eff.netGet (shasumsFileUrl v0)) = 0 :=
              dacf_netGet_count_zero digestOf w.files w.net _ _ _ _ shasums
                (fun h => distFileUrl_ne_shasumsFileUrl v0 _ (srcFileName_head v0) h.symm)
            have hle := getShasums_netGet_count_le w.files w.net
              (pathJoin cacheRootDir v0) v0 (shasumsFileUrl v0)
            constructor
            · simp [List.count_append, List.count_cons, hz1, hzi1, hzi2]
            · simp [List.count_append, List.count_cons, hne1, hzs1, hzs2]
              omega

/-- Witness for C5: in a concrete session that resolves version `1.2.0`
and downloads everything, the index is fetched once and the manifest once. -/
theorem session_fetches_index_once_manifest_at_most_once_witness :
    (buildSession (fun s => some s) (fun _ => [0]) (fun _ => true)
        ⟨some ["1.2.0"], fun _ => none, fun _ => some "body", fun _ => true⟩
        "1.x" "linux" "x64").2.count (Eff.netGet indexJsonUrl) = 1 ∧
    (buildSession (fun s => some s) (fun _ => [0]) (fun _ => true)
        ⟨some ["1.2.0"], fun _ => none, fun _ => some "body", fun _ => true⟩
        "1.x" "linux" "x64").2.count (Eff.netGet (shasumsFileUrl "1.2.0")) ≤ 1 := by
  have h := session_fetches_index_once_manifest_at_most_once
    (fun s => some s) (fun _ => [0]) (fun _ => true)
    ⟨some ["1.2.0"], fun _ => none, fun _ => some "body", fun _ => true⟩
    "1.x" "linux" "x64" "1.x"
    ⟨Except.ok "1.2.0", Except.error Err.missingChecksum, Except.error Err.missingChecksum⟩
    (buildSession (fun s => some s) (fun _ => [0]) (fun _ => true)
      ⟨some ["1.2.0"], fun _ => none, fun _ => some "body", fun _ => true⟩
      "1.x" "linux" "x64").2
    "1.2.0" rfl (by decide) (by decide)
  exact h

end Bundler
